import Mathlib

/-!
# Verification of the cocaine-core node subsystem

A shallow embedding of the parts of `karitra/cocaine-core` that the
specification's claims are about:

* `src/src/manifest.cpp` — `manifest_t::manifest_t` and `manifest_t::deploy`
  (manifest loading, caching, policy validation);
* `src/src/app.cpp` — `node_t` (runlist boot, `on_start_app`, `on_pause_app`,
  `on_list`);
* `src/include/cocaine/rpc/upstream.hpp` — `basic_upstream_t::send` and
  `server_t::recover` / `server_t::create_engine`.

Conventions of the embedding:

* JSON objects are modelled by structures with `Option` fields;
  `Json::Value::get(key, default)` is `Option.getD`, and `asString()` on a
  missing key yields `""`.
* C++ `double` policy values are modelled as `ℚ` (the claims only concern
  sign tests and defaulting, never rounding).
* A storage backend is a partial map `String → Option _`; a `none` lookup is
  a thrown `storage_error_t`.  Write failures are modelled by explicit
  success flags on the world state.
* Thrown `configuration_error_t` / `cocaine::error_t` values become
  `Except.error` carrying the message string the source builds.
* The compile-time constants `defaults::startup_timeout`, …, `defaults::slave`
  are defined outside the sources at hand, so they are carried as an
  explicit `Defaults` parameter and every theorem quantifies over them.
-/

namespace Cocaine

/-- The `"engine"` sub-object of a manifest JSON document, as read by
`manifest_t::manifest_t` (manifest.cpp lines 69–127).  A `none` field means
the key is absent and the corresponding default applies. -/
structure EngineConfig where
  startupTimeout : Option ℚ
  heartbeatTimeout : Option ℚ
  idleTimeout : Option ℚ
  terminationTimeout : Option ℚ
  poolLimit : Option ℕ
  queueLimit : Option ℕ
  growThreshold : Option ℕ
  slave : Option String
deriving DecidableEq, Repr

/-- A manifest JSON document (`root` in manifest.cpp): the `"path"` and
`"type"` string members and the `"engine"` policy object. -/
structure ManifestJson where
  path : Option String
  type : Option String
  engine : EngineConfig
deriving DecidableEq, Repr

/-- The `defaults::` compile-time constants referenced by manifest.cpp.
Their values live outside the sources at hand, so they are a parameter. -/
structure Defaults where
  startupTimeout : ℚ
  heartbeatTimeout : ℚ
  idleTimeout : ℚ
  terminationTimeout : ℚ
  poolLimit : ℕ
  queueLimit : ℕ
  slave : String
deriving DecidableEq, Repr

/-- `manifest_t::policy` after construction. -/
structure Policy where
  startupTimeout : ℚ
  heartbeatTimeout : ℚ
  idleTimeout : ℚ
  terminationTimeout : ℚ
  poolLimit : ℕ
  queueLimit : ℕ
  growThreshold : ℕ
deriving DecidableEq, Repr

/-- A fully constructed `manifest_t`: name, spool path, app type, engine
policy, slave binary, and the raw JSON `root` it was built from (kept by the
source object and written to the cache). -/
structure Manifest where
  name : String
  path : String
  type : String
  policy : Policy
  slave : String
  root : ManifestJson
deriving DecidableEq, Repr

/-- A thrown `configuration_error_t`, identified by its message. -/
structure ConfigError where
  message : String
deriving DecidableEq, Repr

/-- The validation/defaulting tail of `manifest_t::manifest_t`
(manifest.cpp lines 66–128), run after `root` and `path` have been obtained
either from the cache or from `deploy()`:

* `type = root["type"].asString()`;
* each timeout is `root["engine"].get(key, defaults::key).asDouble()`, and
  `startup`, `heartbeat` and `idle` throw when `≤ 0`; `termination` is read
  but never checked;
* `pool_limit` defaults to `defaults::pool_limit` and throws when `0`;
* `queue_limit` defaults to `defaults::queue_limit`, unchecked;
* `grow_threshold` defaults to `queue_limit / pool_limit` (unsigned integer
  division) and throws when `0`;
* `slave` defaults to `defaults::slave`. -/
def configure (d : Defaults) (name : String) (root : ManifestJson) (path : String) :
    Except ConfigError Manifest :=
  let type := root.type.getD ""
  let startup := root.engine.startupTimeout.getD d.startupTimeout
  if startup ≤ 0 then .error ⟨"slave startup timeout must be positive"⟩
  else
    let heartbeat := root.engine.heartbeatTimeout.getD d.heartbeatTimeout
    if heartbeat ≤ 0 then .error ⟨"slave heartbeat timeout must be positive"⟩
    else
      let idle := root.engine.idleTimeout.getD d.idleTimeout
      if idle ≤ 0 then .error ⟨"slave idle timeout must be positive"⟩
      else
        let termination := root.engine.terminationTimeout.getD d.terminationTimeout
        let pool := root.engine.poolLimit.getD d.poolLimit
        if pool = 0 then .error ⟨"engine pool limit must be positive"⟩
        else
          let queue := root.engine.queueLimit.getD d.queueLimit
          let grow := root.engine.growThreshold.getD (queue / pool)
          if grow = 0 then .error ⟨"engine grow threshold must be positive"⟩
          else .ok
            { name := name
              path := path
              type := type
              policy :=
                { startupTimeout := startup
                  heartbeatTimeout := heartbeat
                  idleTimeout := idle
                  terminationTimeout := termination
                  poolLimit := pool
                  queueLimit := queue
                  growThreshold := grow }
              slave := root.engine.slave.getD d.slave
              root := root }

/-- One observable interaction of manifest loading with its collaborators
(storages, filesystem, archive), in the order the source performs them. -/
inductive Effect where
  | cacheGet (collection key : String)
  | coreGet (collection key : String)
  | removeAll (path : String)
  | archiveDeploy (path : String)
  | cachePut (collection key : String) (value : ManifestJson)
deriving DecidableEq, Repr

/-- The environment of `manifest_t`: the two storage backends
(`storage/cache` and `storage/core`), the spool path from the context
configuration, the `defaults::` constants, and success flags for the
fallible side effects (cache `put`, `remove_all`, archive extraction). -/
structure World where
  defaults : Defaults
  spoolPath : String
  cacheManifests : String → Option ManifestJson
  cachePutOk : Bool
  coreManifests : String → Option ManifestJson
  coreApps : String → Option String
  removeOk : Bool
  extractOk : Bool

/-- The spool target `spool_path / name` (manifest.cpp line 147). -/
def spoolTarget (w : World) (name : String) : String :=
  w.spoolPath ++ "/" ++ name

/-- `manifest_t::deploy` (manifest.cpp lines 130–171): fetch the manifest
from `("manifests", name)` and the archive blob from `("apps", name)` of the
core storage (a storage error in either → `configuration_error_t`), then
`remove_all` the spool target and extract the archive into it (a filesystem
or archive error → `configuration_error_t`), and finally set
`root["path"]` to the spool target.  Returns the updated root and path,
paired with the trace of effects actually performed. -/
def deploy (w : World) (name : String) :
    Except ConfigError (ManifestJson × String) × List Effect :=
  match w.coreManifests name with
  | none =>
      (.error ⟨"the '" ++ name ++ "' app is not available"⟩,
       [.coreGet "manifests" name])
  | some root =>
      match w.coreApps name with
      | none =>
          (.error ⟨"the '" ++ name ++ "' app is not available"⟩,
           [.coreGet "manifests" name, .coreGet "apps" name])
      | some _blob =>
          let path := spoolTarget w name
          if !w.removeOk then
            (.error ⟨"the '" ++ name ++ "' app is not available"⟩,
             [.coreGet "manifests" name, .coreGet "apps" name, .removeAll path])
          else if !w.extractOk then
            (.error ⟨"the '" ++ name ++ "' app is not available"⟩,
             [.coreGet "manifests" name, .coreGet "apps" name,
              .removeAll path, .archiveDeploy path])
          else
            (.ok ({ root with path := some path }, path),
             [.coreGet "manifests" name, .coreGet "apps" name,
              .removeAll path, .archiveDeploy path])

/-- `manifest_t::manifest_t` (manifest.cpp lines 35–128): try
`("manifests", name)` in the cache storage; on a hit take
`path = root["path"].asString()`; on a miss run `deploy()` and then put the
updated root back into the cache — a cache-put storage error is logged and
then `configuration_error_t("the '<name>' app is not available")` is thrown.
Finally run the validation/defaulting tail (`configure`). -/
def loadManifest (w : World) (name : String) :
    Except ConfigError Manifest × List Effect :=
  match w.cacheManifests name with
  | some root =>
      (configure w.defaults name root (root.path.getD ""),
       [.cacheGet "manifests" name])
  | none =>
      match deploy w name with
      | (.error e, effs) => (.error e, .cacheGet "manifests" name :: effs)
      | (.ok (root, path), effs) =>
          let effs := .cacheGet "manifests" name :: effs
            ++ [.cachePut "manifests" name root]
          if w.cachePutOk then
            (configure w.defaults name root path, effs)
          else
            (.error ⟨"the '" ++ name ++ "' app is not available"⟩, effs)

/-- Overwrite the cache-storage entry `("manifests", name)`, as a successful
`cache->put("manifests", name, root)` would. -/
def putCache (w : World) (name : String) (root : ManifestJson) : World :=
  { w with cacheManifests := fun n => if n = name then some root else w.cacheManifests n }

/-! ## The node service (`node_t`, app.cpp lines 200–318)

`m_apps` is a name-keyed map; here it is an association list.  App
construction (`std::make_shared<app_t>(m_context, name, profile)`) can throw
a `cocaine::error_t` — its outcome is a parameter `mk` of the operations,
since `app_t`'s node-era constructor lives outside the sources at hand. -/

/-- A thrown `cocaine::error_t`, identified by its message. -/
structure NodeError where
  message : String
deriving DecidableEq, Repr

/-- An app held in the `node_t::m_apps` registry (the detail that matters to
the registry logic is which profile it runs). -/
structure App where
  profile : String
deriving DecidableEq, Repr

/-- The `m_apps` registry: an association list from app name to app. -/
abbrev AppMap := List (String × App)

/-- `node_t::on_start_app` (app.cpp lines 269–288): throw when the name is
already in `m_apps`; otherwise construct the app via `mk` (propagating its
error), insert it, and start it. -/
def onStartApp (mk : String → String → Except NodeError App)
    (apps : AppMap) (name profile : String) : Except NodeError AppMap :=
  if (apps.lookup name).isSome then
    .error ⟨"app '" ++ name ++ "' is already running"⟩
  else
    match mk name profile with
    | .error e => .error e
    | .ok app => .ok ((name, app) :: apps)

/-- `node_t::on_pause_app` (app.cpp lines 290–305): throw when the name is
not in `m_apps`; otherwise pause the app and erase it from the registry. -/
def onPauseApp (apps : AppMap) (name : String) : Except NodeError AppMap :=
  if (apps.lookup name).isSome then
    .ok (apps.filter (fun p => p.1 ≠ name))
  else
    .error ⟨"app '" ++ name ++ "' is not running"⟩

/-- `node_t::on_list` (app.cpp lines 307–318): the names in `m_apps`. -/
def onList (apps : AppMap) : List String :=
  apps.map Prod.fst

/-- One iteration of the `node_t` boot loop (app.cpp lines 237–245): call
`on_start_app` for the runlist entry, catching a thrown `cocaine::error_t`
(which is logged and leaves the registry as it was). -/
def bootStep (mk : String → String → Except NodeError App)
    (apps : AppMap) (entry : String × String) : AppMap :=
  match onStartApp mk apps entry.1 entry.2 with
  | .ok apps₂ => apps₂
  | .error _ => apps

/-- `node_t::node_t` boot (app.cpp lines 200–246): read the runlist id from
the arguments (default `"default"`), fetch `("runlists", id)` from the core
storage (a storage error is logged and leaves the runlist empty), then call
`on_start_app` for each entry, catching and logging `cocaine::error_t`
per-app so the loop continues.  Returns the resulting `m_apps` registry;
boot itself never fails. -/
def nodeBoot (mk : String → String → Except NodeError App)
    (runlists : String → Option (List (String × String)))
    (args : Option String) : AppMap :=
  ((runlists (args.getD "default")).getD []).foldl (bootStep mk) []

/-! ## The legacy server (`server_t`, second document of upstream.hpp)

`m_engines` is a name-keyed map of engines; `engine_t` itself lives outside
the sources at hand, so an engine is reduced to its running flag and engine
construction success is a parameter `ctorOk`. -/

/-- An engine in `server_t::m_engines`: whether it is running. -/
structure Engine where
  running : Bool
deriving DecidableEq, Repr

/-- The `m_engines` registry: an association list from app name to engine. -/
abbrev EngineMap := List (String × Engine)

/-- `server_t::create_engine` (lines 372–391 of the second document of
upstream.hpp), as invoked from `recover`: construct an engine for `name`
(`ctorOk name = false` models a thrown `configuration_error_t`, which
`recover` lets propagate), `start()` it, and insert it into `m_engines`. -/
def createEngine (ctorOk : String → Bool) (engines : EngineMap) (name : String) :
    Except ConfigError EngineMap :=
  if (engines.lookup name).isSome then
    .error ⟨"the specified app already exists"⟩
  else if ctorOk name then
    .ok ((name, ⟨true⟩) :: engines)
  else
    .error ⟨"the '" ++ name ++ "' app is not available"⟩

/-- Stop the engine registered under `name`, leaving it in the registry
(`recover` calls `stop()` but never erases). -/
def stopEngine (engines : EngineMap) (name : String) : EngineMap :=
  engines.map (fun p => if p.1 = name then (p.1, ⟨false⟩) else p)

/-- One step of the `recover` loop over the symmetric difference: a name
with no registered engine is created and started, a registered one is
stopped. -/
def recoverStep (ctorOk : String → Bool) (engines : Except ConfigError EngineMap)
    (name : String) : Except ConfigError EngineMap :=
  match engines with
  | .error e => .error e
  | .ok m =>
      if (m.lookup name).isSome then
        .ok (stopEngine m name)
      else
        createEngine ctorOk m name

/-- The symmetric difference processed by `server_t::recover`:
`std::set_symmetric_difference` of the storage app list (as a `std::set`,
hence deduplicated) and the registered engine names.  The C++ emits it in
sorted order; the loop body touches each listed name exactly once and
distinct names independently, so the registry `recover` produces does not
depend on the order and the difference is taken here as
"fresh storage names, then registered names missing from storage". -/
def symmDiff (available : List String) (engines : EngineMap) : List String :=
  (available.dedup.filter (fun n => (engines.lookup n).isNone))
    ++ (engines.map Prod.fst).dedup.filter (fun n => ¬ n ∈ available)

/-- `server_t::recover` (lines 446–478 of the second document of
upstream.hpp): list `("apps")` from the core storage, form the symmetric
difference with the registered engine names, and for each name in it either
`create_engine` (not registered: a new app appeared in storage) or `stop()`
the registered engine (it vanished from storage).  Exceptions from
`create_engine` propagate. -/
def recover (ctorOk : String → Bool) (storageApps : List String)
    (engines : EngineMap) : Except ConfigError EngineMap :=
  (symmDiff storageApps engines).foldl (recoverStep ctorOk) (.ok engines)

/-! ## The upstream (`basic_upstream_t`, upstream.hpp lines 36–79) -/

/-- The `basic_upstream_t` state enumeration (upstream.hpp lines 40–42). -/
inductive UpstreamState where
  | active
  | sealed
deriving DecidableEq, Repr

/-- An event sent through an upstream: whether its
`event_traits<Event>::transition_type` is `void` (a terminal event), and its
arguments, abstracted to a number. -/
structure Frame where
  terminal : Bool
  payload : ℕ
deriving DecidableEq, Repr

/-- `basic_upstream_t::send` (upstream.hpp lines 63–79): a sealed upstream
ignores the message entirely; an active one seals itself first when the
event's transition type is `void`, and then writes the message to the
session's channel when the session is still attached (`session->ptr` not
null, given here as `attached`).  Returns the new state and the frame
written, if any. -/
def send (st : UpstreamState) (f : Frame) (attached : Bool) :
    UpstreamState × Option Frame :=
  match st with
  | .sealed => (.sealed, none)
  | .active =>
      let st₂ := if f.terminal then UpstreamState.sealed else .active
      (st₂, if attached then some f else none)

/-- Run a sequence of `send` calls (each with the session-attachment flag it
observes) and collect the frames written to the channel, in order. -/
def sendAll (st : UpstreamState) : List (Frame × Bool) → UpstreamState × List Frame
  | [] => (st, [])
  | (f, attached) :: rest =>
      let (st₂, written) := send st f attached
      let (st₃, log) := sendAll st₂ rest
      (st₃, (written.toList) ++ log)

/-! ## Sample values for concrete evaluations -/

/-- Arbitrary concrete values for the `defaults::` constants. -/
def dflt : Defaults :=
  { startupTimeout := 1, heartbeatTimeout := 1, idleTimeout := 1,
    terminationTimeout := 1, poolLimit := 4, queueLimit := 8,
    slave := "default-slave" }

/-- A fully explicit, valid engine configuration. -/
def sampleEngine : EngineConfig :=
  { startupTimeout := some 5, heartbeatTimeout := some 5, idleTimeout := some 5,
    terminationTimeout := some 5, poolLimit := some 2, queueLimit := some 10,
    growThreshold := some 3, slave := some "bin" }

/-- A valid manifest document as the cache would hold it (path populated). -/
def sampleRoot : ManifestJson :=
  { path := some "/spool/echo", type := some "python", engine := sampleEngine }

/-- The manifest `configure` builds from `sampleRoot`. -/
def sampleManifest : Manifest :=
  { name := "echo", path := "/spool/echo", type := "python",
    policy :=
      { startupTimeout := 5, heartbeatTimeout := 5, idleTimeout := 5,
        terminationTimeout := 5, poolLimit := 2, queueLimit := 10,
        growThreshold := 3 },
    slave := "bin", root := sampleRoot }

/-- A world whose cache already holds `sampleRoot` for app `"echo"`. -/
def hitWorld : World :=
  { defaults := dflt, spoolPath := "/spool",
    cacheManifests := fun n => if n = "echo" then some sampleRoot else none,
    cachePutOk := true,
    coreManifests := fun _ => none, coreApps := fun _ => none,
    removeOk := true, extractOk := true }

/-- A manifest document as the authoritative storage holds it (no path yet). -/
def coreRoot : ManifestJson :=
  { path := none, type := some "python", engine := sampleEngine }

/-- A world with an empty cache whose core storage holds the manifest and
archive for app `"echo"`; every side effect succeeds. -/
def missWorld : World :=
  { defaults := dflt, spoolPath := "/spool",
    cacheManifests := fun _ => none,
    cachePutOk := true,
    coreManifests := fun n => if n = "echo" then some coreRoot else none,
    coreApps := fun n => if n = "echo" then some "ARCHIVE" else none,
    removeOk := true, extractOk := true }

/-- Like `missWorld`, but the cache `put` of the deployed manifest fails
with a storage error. -/
def putFailWorld : World :=
  { missWorld with cachePutOk := false }

/-- A valid configuration that omits grow-threshold and has
`queue_limit = 1 < 2 = pool_limit`. -/
def omitGrowRoot : ManifestJson :=
  { path := none, type := some "python",
    engine := { sampleEngine with
                  growThreshold := none,
                  queueLimit := some 1,
                  poolLimit := some 2 } }

/-- A configuration whose startup timeout is 0 (and every other time value
nonnegative). -/
def zeroStartRoot : ManifestJson :=
  { sampleRoot with engine := { sampleEngine with startupTimeout := some 0 } }

/-- A world whose cache holds `zeroStartRoot` for app `"echo"`. -/
def zeroStartWorld : World :=
  { hitWorld with
      cacheManifests := fun n => if n = "echo" then some zeroStartRoot else none }

/-- A configuration whose termination timeout is negative (all other values
valid). -/
def negTermRoot : ManifestJson :=
  { sampleRoot with engine := { sampleEngine with terminationTimeout := some (-3) } }

/-- A world whose cache holds `negTermRoot` for app `"echo"`. -/
def negTermWorld : World :=
  { hitWorld with
      cacheManifests := fun n => if n = "echo" then some negTermRoot else none }

/-! ## Helper lemmas -/

/-- Anatomy of a successful `configure`: the checks all passed and every
field of the resulting manifest is the defaulted configuration value. -/
theorem configure_ok_fields (d : Defaults) (name : String) (root : ManifestJson)
    (path : String) (m : Manifest) (h : configure d name root path = .ok m) :
    ¬ root.engine.startupTimeout.getD d.startupTimeout ≤ 0 ∧
    ¬ root.engine.heartbeatTimeout.getD d.heartbeatTimeout ≤ 0 ∧
    ¬ root.engine.idleTimeout.getD d.idleTimeout ≤ 0 ∧
    ¬ root.engine.poolLimit.getD d.poolLimit = 0 ∧
    ¬ root.engine.growThreshold.getD
        ((root.engine.queueLimit.getD d.queueLimit) / (root.engine.poolLimit.getD d.poolLimit)) = 0 ∧
    m = { name := name
          path := path
          type := root.type.getD ""
          policy :=
            { startupTimeout := root.engine.startupTimeout.getD d.startupTimeout
              heartbeatTimeout := root.engine.heartbeatTimeout.getD d.heartbeatTimeout
              idleTimeout := root.engine.idleTimeout.getD d.idleTimeout
              terminationTimeout := root.engine.terminationTimeout.getD d.terminationTimeout
              poolLimit := root.engine.poolLimit.getD d.poolLimit
              queueLimit := root.engine.queueLimit.getD d.queueLimit
              growThreshold := root.engine.growThreshold.getD
                ((root.engine.queueLimit.getD d.queueLimit) / (root.engine.poolLimit.getD d.poolLimit)) }
          slave := root.engine.slave.getD d.slave
          root := root } := by
  simp only [configure] at h
  split at h
  · exact absurd h (by simp)
  · split at h
    · exact absurd h (by simp)
    · split at h
      · exact absurd h (by simp)
      · split at h
        · exact absurd h (by simp)
        · split at h
          · exact absurd h (by simp)
          · refine ⟨by assumption, by assumption, by assumption, by assumption, by assumption, ?_⟩
            exact (Except.ok.injEq _ _).mp h.symm

/-- A successful `loadManifest` comes from a successful `configure` on some
root whose `path` member agrees with the manifest's path. -/
theorem loadManifest_ok_configure (w : World) (name : String) (m : Manifest)
    (effs : List Effect) (h : loadManifest w name = (.ok m, effs)) :
    ∃ root path, configure w.defaults name root path = .ok m ∧
      root.path.getD "" = path := by
  unfold loadManifest at h
  split at h
  · rename_i root heq
    refine ⟨root, root.path.getD "", ?_, rfl⟩
    exact congrArg Prod.fst h
  · split at h
    · simp at h
    · rename_i root path effs₂ heq
      by_cases hput : w.cachePutOk
      · simp only [hput, if_true] at h
        refine ⟨root, path, congrArg Prod.fst h, ?_⟩
        unfold deploy at heq
        split at heq
        · simp at heq
        · split at heq
          · simp at heq
          · split at heq
            · simp at heq
            · split at heq
              · simp at heq
              · simp only [Prod.mk.injEq, Except.ok.injEq] at heq
                obtain ⟨⟨hroot, hpath⟩, -⟩ := heq
                subst hpath
                rw [← hroot]
                rfl
      · simp [hput] at h



/-! ## Claim theorems -/

/-- C5: every manifest that load returns satisfies `pool_limit ≥ 1` and
`grow_threshold ≥ 1`; a configuration whose pool-limit is 0 or whose
grow-threshold is 0 is rejected with a configuration error instead of
producing a manifest. -/
theorem manifest_pool_and_grow_limits (w : World) (name : String) (m : Manifest)
    (effs : List Effect) (h : loadManifest w name = (.ok m, effs)) :
    (1 ≤ m.policy.poolLimit ∧ 1 ≤ m.policy.growThreshold) ∧
    (∀ (d : Defaults) (nm : String) (root : ManifestJson) (p : String),
      root.engine.poolLimit = some 0 ∨ root.engine.growThreshold = some 0 →
      ∃ e, configure d nm root p = .error e) := by
  constructor
  · obtain ⟨root, path, hc, -⟩ := loadManifest_ok_configure w name m effs h
    obtain ⟨-, -, -, hpool, hgrow, hm⟩ := configure_ok_fields _ _ _ _ _ hc
    subst hm
    exact ⟨Nat.one_le_iff_ne_zero.mpr hpool, Nat.one_le_iff_ne_zero.mpr hgrow⟩
  · intro d nm root p hzero
    cases hres : configure d nm root p with
    | error e => exact ⟨e, rfl⟩
    | ok m₂ =>
        exfalso
        obtain ⟨-, -, -, hpool, hgrow, -⟩ := configure_ok_fields _ _ _ _ _ hres
        rcases hzero with h0 | h0
        · rw [h0] at hpool
          exact hpool rfl
        · rw [h0] at hgrow
          exact hgrow rfl

/-- Witness for C5 at a concrete world and manifest. -/
theorem manifest_pool_and_grow_limits_witness :
    (1 ≤ sampleManifest.policy.poolLimit ∧ 1 ≤ sampleManifest.policy.growThreshold) ∧
    (∀ (d : Defaults) (nm : String) (root : ManifestJson) (p : String),
      root.engine.poolLimit = some 0 ∨ root.engine.growThreshold = some 0 →
      ∃ e, configure d nm root p = .error e) :=
  manifest_pool_and_grow_limits hitWorld "echo" sampleManifest
    [.cacheGet "manifests" "echo"] (by rfl)

/-- C9: when the engine configuration omits grow-threshold it defaults to
the integer quotient `queue_limit / pool_limit`; a configuration omitting it
with `queue_limit < pool_limit` is therefore rejected (the default is 0),
while the same configuration with any explicit `grow-threshold ≥ 1` is
accepted. -/
theorem grow_threshold_defaults_to_quotient (d : Defaults) (name : String)
    (root : ManifestJson) (path : String) :
    (∀ m, root.engine.growThreshold = none → configure d name root path = .ok m →
      m.policy.growThreshold = m.policy.queueLimit / m.policy.poolLimit) ∧
    (root.engine.growThreshold = none →
      root.engine.queueLimit.getD d.queueLimit < root.engine.poolLimit.getD d.poolLimit →
      ∃ e, configure d name root path = .error e) ∧
    (∀ g : ℕ, 1 ≤ g →
      ¬ root.engine.startupTimeout.getD d.startupTimeout ≤ 0 →
      ¬ root.engine.heartbeatTimeout.getD d.heartbeatTimeout ≤ 0 →
      ¬ root.engine.idleTimeout.getD d.idleTimeout ≤ 0 →
      root.engine.poolLimit.getD d.poolLimit ≠ 0 →
      ∃ m, configure d name
        { root with engine := { root.engine with growThreshold := some g } } path = .ok m) := by
  refine ⟨?_, ?_, ?_⟩
  · intro m hnone hok
    obtain ⟨-, -, -, -, -, hm⟩ := configure_ok_fields _ _ _ _ _ hok
    subst hm
    simp [hnone]
  · intro hnone hlt
    cases hres : configure d name root path with
    | error e => exact ⟨e, rfl⟩
    | ok m₂ =>
        exfalso
        obtain ⟨-, -, -, -, hgrow, -⟩ := configure_ok_fields _ _ _ _ _ hres
        rw [hnone, Option.getD_none, Nat.div_eq_of_lt hlt] at hgrow
        exact hgrow rfl
  · intro g hg h1 h2 h3 h4
    have hg0 : g ≠ 0 := Nat.one_le_iff_ne_zero.mp hg
    cases hres : configure d name
        { root with engine := { root.engine with growThreshold := some g } } path with
    | ok m => exact ⟨m, rfl⟩
    | error e =>
        exfalso
        simp only [configure] at hres
        rw [if_neg h1, if_neg h2, if_neg h3, if_neg h4, if_neg (by simpa using hg0)] at hres
        exact Except.noConfusion hres


/-- Witness for C9 at a concrete configuration (`queue_limit = 1`,
`pool_limit = 2`, grow-threshold omitted, valid timeouts). -/
theorem grow_threshold_defaults_to_quotient_witness :
    (∃ e, configure dflt "echo" omitGrowRoot "/spool/echo" = .error e) ∧
    (∃ m, configure dflt "echo"
      { omitGrowRoot with
          engine := { omitGrowRoot.engine with growThreshold := some 1 } }
      "/spool/echo" = .ok m) := by
  constructor
  · exact (grow_threshold_defaults_to_quotient dflt "echo" omitGrowRoot
      "/spool/echo").2.1 rfl (by decide)
  · exact (grow_threshold_defaults_to_quotient dflt "echo" omitGrowRoot
      "/spool/echo").2.2 1 (by decide) (by decide) (by decide) (by decide) (by decide)


/-- C6 is false on the code, in both directions: a configuration whose four
time values are all ≥ 0 (startup timeout exactly 0) is rejected, and a
configuration with a negative termination timeout is accepted. -/
theorem timeout_validation_counterexample :
    ((0 ≤ zeroStartRoot.engine.startupTimeout.getD dflt.startupTimeout ∧
      0 ≤ zeroStartRoot.engine.heartbeatTimeout.getD dflt.heartbeatTimeout ∧
      0 ≤ zeroStartRoot.engine.idleTimeout.getD dflt.idleTimeout ∧
      0 ≤ zeroStartRoot.engine.terminationTimeout.getD dflt.terminationTimeout) ∧
     (loadManifest zeroStartWorld "echo").1 =
       .error ⟨"slave startup timeout must be positive"⟩) ∧
    ((negTermRoot.engine.terminationTimeout.getD dflt.terminationTimeout < 0) ∧
     (loadManifest negTermWorld "echo").1.isOk = true) :=
  ⟨⟨⟨by decide, by decide, by decide, by decide⟩, rfl⟩, ⟨by decide, rfl⟩⟩

/-- C6 (amended): every constructed manifest has strictly positive startup,
heartbeat and idle timeouts (a value ≤ 0 in any of them is rejected), while
the termination timeout is read but never validated: whether construction
succeeds is independent of its value. -/
theorem timeout_validation_amended (w : World) (name : String) (m : Manifest)
    (effs : List Effect) (h : loadManifest w name = (.ok m, effs)) :
    (0 < m.policy.startupTimeout ∧ 0 < m.policy.heartbeatTimeout ∧
     0 < m.policy.idleTimeout) ∧
    (∀ (d : Defaults) (nm : String) (root : ManifestJson) (p : String) (t : ℚ),
      (configure d nm
        { root with engine := { root.engine with terminationTimeout := some t } } p).isOk
        = (configure d nm root p).isOk) := by
  constructor
  · obtain ⟨root, path, hc, -⟩ := loadManifest_ok_configure w name m effs h
    obtain ⟨h1, h2, h3, -, -, hm⟩ := configure_ok_fields _ _ _ _ _ hc
    subst hm
    exact ⟨lt_of_not_le h1, lt_of_not_le h2, lt_of_not_le h3⟩
  · intro d nm root p t
    by_cases h1 : root.engine.startupTimeout.getD d.startupTimeout ≤ 0 <;>
    by_cases h2 : root.engine.heartbeatTimeout.getD d.heartbeatTimeout ≤ 0 <;>
    by_cases h3 : root.engine.idleTimeout.getD d.idleTimeout ≤ 0 <;>
    by_cases h4 : root.engine.poolLimit.getD d.poolLimit = 0 <;>
    by_cases h5 : root.engine.growThreshold.getD
      ((root.engine.queueLimit.getD d.queueLimit) /
        (root.engine.poolLimit.getD d.poolLimit)) = 0 <;>
    simp [configure, Except.isOk, Except.toBool, h1, h2, h3, h4, h5]

/-- Witness for the amended C6 at a concrete world and manifest. -/
theorem timeout_validation_amended_witness :
    (0 < sampleManifest.policy.startupTimeout ∧
     0 < sampleManifest.policy.heartbeatTimeout ∧
     0 < sampleManifest.policy.idleTimeout) ∧
    (∀ (d : Defaults) (nm : String) (root : ManifestJson) (p : String) (t : ℚ),
      (configure d nm
        { root with engine := { root.engine with terminationTimeout := some t } } p).isOk
        = (configure d nm root p).isOk) :=
  timeout_validation_amended hitWorld "echo" sampleManifest
    [.cacheGet "manifests" "echo"] (by rfl)

/-- C1: the code violates the claim.  In `putFailWorld` the cache misses,
the deploy from the authoritative storage succeeds (second conjunct), the
deployed manifest is perfectly constructible (third conjunct), and with a
working cache the very same data loads fine (fourth conjunct) — yet because
the cache `put` fails, `manifest_t::manifest_t` throws
`configuration_error_t("the 'echo' app is not available")` instead of
returning the manifest (first conjunct), contradicting both the claim and
the source's own warning-level log on that path. -/
theorem cache_put_failure_surfaces :
    (loadManifest putFailWorld "echo").1 =
      .error ⟨"the 'echo' app is not available"⟩ ∧
    deploy putFailWorld "echo" =
      (.ok ({ coreRoot with path := some "/spool/echo" }, "/spool/echo"),
       [.coreGet "manifests" "echo", .coreGet "apps" "echo",
        .removeAll "/spool/echo", .archiveDeploy "/spool/echo"]) ∧
    (configure dflt "echo" { coreRoot with path := some "/spool/echo" }
      "/spool/echo").isOk = true ∧
    (loadManifest missWorld "echo").1.isOk = true :=
  ⟨rfl, rfl, rfl, rfl⟩

/-- C2: on a cache miss (with every collaborator succeeding), load performs
exactly the cache read, the two authoritative fetches, the destructive erase
of `spool_path/name` followed by the archive deploy into it, and the cache
write of the manifest with its `path` member set to `spool_path/name` — in
that order; the returned manifest is the configured deployed document, whose
`path` field is `spool_path/name`. -/
theorem load_cache_miss_algorithm (w : World) (name : String)
    (root : ManifestJson) (blob : String)
    (hmiss : w.cacheManifests name = none)
    (hman : w.coreManifests name = some root)
    (happ : w.coreApps name = some blob)
    (hrm : w.removeOk = true) (hex : w.extractOk = true)
    (hput : w.cachePutOk = true) :
    (loadManifest w name).2 =
      [.cacheGet "manifests" name,
       .coreGet "manifests" name, .coreGet "apps" name,
       .removeAll (spoolTarget w name), .archiveDeploy (spoolTarget w name),
       .cachePut "manifests" name { root with path := some (spoolTarget w name) }] ∧
    (loadManifest w name).1 =
      configure w.defaults name { root with path := some (spoolTarget w name) }
        (spoolTarget w name) ∧
    (∀ m effs, loadManifest w name = (.ok m, effs) →
      m.path = spoolTarget w name) := by
  have hd : deploy w name =
      (.ok ({ root with path := some (spoolTarget w name) }, spoolTarget w name),
       [.coreGet "manifests" name, .coreGet "apps" name,
        .removeAll (spoolTarget w name), .archiveDeploy (spoolTarget w name)]) := by
    unfold deploy
    rw [hman, happ]
    simp [hrm, hex]
  have hl : loadManifest w name =
      (configure w.defaults name { root with path := some (spoolTarget w name) }
        (spoolTarget w name),
       [.cacheGet "manifests" name,
        .coreGet "manifests" name, .coreGet "apps" name,
        .removeAll (spoolTarget w name), .archiveDeploy (spoolTarget w name),
        .cachePut "manifests" name { root with path := some (spoolTarget w name) }]) := by
    unfold loadManifest
    rw [hmiss, hd]
    simp [hput]
  refine ⟨by rw [hl], by rw [hl], ?_⟩
  intro m effs hm
  rw [hl] at hm
  have hc : configure w.defaults name { root with path := some (spoolTarget w name) }
      (spoolTarget w name) = .ok m := congrArg Prod.fst hm
  obtain ⟨-, -, -, -, -, hmf⟩ := configure_ok_fields _ _ _ _ _ hc
  subst hmf
  rfl

/-- Witness for C2 at `missWorld`. -/
theorem load_cache_miss_algorithm_witness :
    (loadManifest missWorld "echo").2 =
      [.cacheGet "manifests" "echo",
       .coreGet "manifests" "echo", .coreGet "apps" "echo",
       .removeAll (spoolTarget missWorld "echo"),
       .archiveDeploy (spoolTarget missWorld "echo"),
       .cachePut "manifests" "echo"
         { coreRoot with path := some (spoolTarget missWorld "echo") }] ∧
    (loadManifest missWorld "echo").1 =
      configure missWorld.defaults "echo"
        { coreRoot with path := some (spoolTarget missWorld "echo") }
        (spoolTarget missWorld "echo") ∧
    (∀ m effs, loadManifest missWorld "echo" = (.ok m, effs) →
      m.path = spoolTarget missWorld "echo") :=
  load_cache_miss_algorithm missWorld "echo" coreRoot "ARCHIVE"
    rfl rfl rfl rfl rfl rfl

/-- C7: putting the root document of a loaded manifest into the cache of
any world with the same defaults and loading the same name again yields the
very same manifest (in particular equal up to the spool path), touching the
cache once and never the authoritative storage. -/
theorem manifest_cache_round_trip (w w₂ : World) (name : String) (m : Manifest)
    (effs : List Effect)
    (hload : loadManifest w name = (.ok m, effs))
    (hd : w₂.defaults = w.defaults) :
    loadManifest (putCache w₂ name m.root) name =
      (.ok m, [.cacheGet "manifests" name]) := by
  obtain ⟨root, path, hc, hp⟩ := loadManifest_ok_configure w name m effs hload
  have hroot : m.root = root := by
    obtain ⟨-, -, -, -, -, hmf⟩ := configure_ok_fields _ _ _ _ _ hc
    subst hmf
    rfl
  have hhit : (putCache w₂ name m.root).cacheManifests name = some m.root := by
    simp [putCache]
  have hdefs : (putCache w₂ name m.root).defaults = w.defaults := by
    simp [putCache, hd]
  rw [← hroot] at hc hp
  simp only [loadManifest, hhit, hdefs]
  rw [hp, hc]

/-- Witness for C7: round-tripping `sampleManifest` through the cache of a
world whose authoritative storage is empty. -/
theorem manifest_cache_round_trip_witness :
    loadManifest (putCache hitWorld "echo" sampleManifest.root) "echo" =
      (.ok sampleManifest, [.cacheGet "manifests" "echo"]) :=
  manifest_cache_round_trip hitWorld hitWorld "echo" sampleManifest
    [.cacheGet "manifests" "echo"] (by rfl) rfl

/-! ## Association-list lemmas (for the name-keyed registries) -/

section AssocList

variable {β : Type}

theorem lookup_cons_self (k : String) (v : β) (l : List (String × β)) :
    ((k, v) :: l).lookup k = some v := by
  simp [List.lookup]

theorem lookup_cons_ne (k k' : String) (v : β) (l : List (String × β))
    (h : k' ≠ k) : ((k, v) :: l).lookup k' = l.lookup k' := by
  simp [List.lookup, beq_eq_false_iff_ne.mpr h]

theorem mem_keys_iff_lookup (l : List (String × β)) (k : String) :
    k ∈ l.map Prod.fst ↔ (l.lookup k).isSome := by
  induction l with
  | nil => simp
  | cons p rest ih =>
      by_cases h : k = p.1
      · subst h
        simp [List.lookup]
      · simp [List.lookup, beq_eq_false_iff_ne.mpr h, ih, Ne.symm h, h]

theorem lookup_filter_self (l : List (String × β)) (k : String) :
    (l.filter (fun p => p.1 ≠ k)).lookup k = none := by
  induction l with
  | nil => rfl
  | cons p rest ih =>
      obtain ⟨a, b⟩ := p
      by_cases h : a = k
      · rw [List.filter_cons_of_neg (by simp [h])]
        exact ih
      · rw [List.filter_cons_of_pos (by simp [h]),
          lookup_cons_ne a k b _ (Ne.symm h)]
        exact ih

theorem lookup_filter_ne (l : List (String × β)) (k k' : String) (h : k' ≠ k) :
    (l.filter (fun p => p.1 ≠ k)).lookup k' = l.lookup k' := by
  induction l with
  | nil => rfl
  | cons p rest ih =>
      obtain ⟨a, b⟩ := p
      by_cases hp : a = k
      · rw [List.filter_cons_of_neg (by simp [hp]),
          lookup_cons_ne a k' b rest (by rw [hp]; exact h)]
        exact ih
      · by_cases hk : k' = a
        · subst hk
          rw [List.filter_cons_of_pos (by simp [hp]), lookup_cons_self,
            lookup_cons_self]
        · rw [List.filter_cons_of_pos (by simp [hp]),
            lookup_cons_ne a k' b _ hk, lookup_cons_ne a k' b rest hk]
          exact ih

theorem keys_filter (l : List (String × β)) (k : String) :
    (l.filter (fun p => p.1 ≠ k)).map Prod.fst
      = (l.map Prod.fst).filter (fun n => n ≠ k) := by
  induction l with
  | nil => rfl
  | cons p rest ih =>
      obtain ⟨a, b⟩ := p
      by_cases h : a = k
      · rw [List.filter_cons_of_neg (by simp [h]), List.map_cons,
          List.filter_cons_of_neg (by simp [h])]
        exact ih
      · rw [List.filter_cons_of_pos (by simp [h]), List.map_cons, List.map_cons,
          List.filter_cons_of_pos (by simp [h]), ih]

end AssocList

/-- C8: the node registry keeps at most one app per name, `list` reflects it
exactly, `start_app` throws on a registered name and otherwise inserts and
starts, `pause_app` throws on an unregistered name and otherwise pauses and
erases (leaving every other registration intact). -/
theorem node_app_registry (mk : String → String → Except NodeError App)
    (apps : AppMap) (name profile : String) :
    ((apps.lookup name).isSome → ∃ e, onStartApp mk apps name profile = .error e) ∧
    (∀ app, apps.lookup name = none → mk name profile = .ok app →
      onStartApp mk apps name profile = .ok ((name, app) :: apps) ∧
      ((name, app) :: apps).lookup name = some app) ∧
    (apps.lookup name = none → ∃ e, onPauseApp apps name = .error e) ∧
    (∀ app, apps.lookup name = some app →
      onPauseApp apps name = .ok (apps.filter (fun p => p.1 ≠ name)) ∧
      (apps.filter (fun p => p.1 ≠ name)).lookup name = none ∧
      (∀ n, n ≠ name →
        (apps.filter (fun p => p.1 ≠ name)).lookup n = apps.lookup n)) ∧
    (∀ n, n ∈ onList apps ↔ (apps.lookup n).isSome) ∧
    ((onList apps).Nodup → ∀ apps₂,
      (onStartApp mk apps name profile = .ok apps₂ ∨ onPauseApp apps name = .ok apps₂) →
      (onList apps₂).Nodup) := by
  refine ⟨?_, ?_, ?_, ?_, ?_, ?_⟩
  · intro hs
    refine ⟨⟨"app '" ++ name ++ "' is already running"⟩, ?_⟩
    simp [onStartApp, hs]
  · intro app hnone hmk
    constructor
    · simp [onStartApp, hnone, hmk]
    · exact lookup_cons_self name app apps
  · intro hnone
    refine ⟨⟨"app '" ++ name ++ "' is not running"⟩, ?_⟩
    simp [onPauseApp, hnone]
  · intro app hsome
    refine ⟨by simp [onPauseApp, hsome], lookup_filter_self apps name, ?_⟩
    intro n hn
    exact lookup_filter_ne apps name n hn
  · intro n
    exact mem_keys_iff_lookup apps n
  · intro hnd apps₂ hcase
    rcases hcase with hstart | hpause
    · unfold onStartApp at hstart
      by_cases hs : (apps.lookup name).isSome
      · simp [hs] at hstart
      · simp only [hs, if_false, Bool.false_eq_true] at hstart
        cases hmk : mk name profile with
        | error e => rw [hmk] at hstart; exact Except.noConfusion hstart
        | ok app =>
            rw [hmk] at hstart
            have happs : apps₂ = (name, app) :: apps :=
              ((Except.ok.injEq _ _).mp hstart).symm
            subst happs
            refine List.Nodup.cons ?_ hnd
            intro hmem
            exact hs ((mem_keys_iff_lookup apps name).mp hmem)
    · unfold onPauseApp at hpause
      by_cases hs : (apps.lookup name).isSome
      · simp only [hs, if_true] at hpause
        have happs : apps₂ = apps.filter (fun p => p.1 ≠ name) :=
          ((Except.ok.injEq _ _).mp hpause).symm
        subst happs
        unfold onList
        rw [keys_filter]
        exact List.Nodup.filter _ hnd
      · simp [hs] at hpause

/-- Witness for C8 at a concrete registry. -/
theorem node_app_registry_witness :
    (∃ e, onStartApp (fun _ p => .ok ⟨p⟩) [("a", ⟨"pa"⟩)] "a" "px" = .error e) ∧
    (onStartApp (fun _ p => .ok ⟨p⟩) [("a", ⟨"pa"⟩)] "b" "pb"
        = .ok [("b", ⟨"pb"⟩), ("a", ⟨"pa"⟩)] ∧
      ([("b", App.mk "pb"), ("a", App.mk "pa")].lookup "b") = some ⟨"pb"⟩) ∧
    (∃ e, onPauseApp ([("a", App.mk "pa")]) "b" = .error e) ∧
    (onPauseApp [("a", App.mk "pa")] "a"
        = .ok ([("a", App.mk "pa")].filter (fun p => p.1 ≠ "a")) ∧
      (([("a", App.mk "pa")].filter (fun p => p.1 ≠ "a")).lookup "a") = none ∧
      (∀ n, n ≠ "a" →
        (([("a", App.mk "pa")].filter (fun p => p.1 ≠ "a")).lookup n)
          = ([("a", App.mk "pa")].lookup n))) := by
  have h := node_app_registry (fun _ p => .ok ⟨p⟩) [("a", ⟨"pa"⟩)] "a" "px"
  have h₂ := node_app_registry (fun _ p => .ok ⟨p⟩) [("a", ⟨"pa"⟩)] "b" "pb"
  exact ⟨h.1 (by decide), h₂.2.1 ⟨"pb"⟩ (by decide) rfl, h₂.2.2.1 (by decide),
    h.2.2.2.1 ⟨"pa"⟩ (by decide)⟩

/-- A boot-loop iteration changes no registration other than its own entry's
name. -/
theorem bootStep_lookup_ne (mk : String → String → Except NodeError App)
    (apps : AppMap) (entry : String × String) (n : String) (hn : n ≠ entry.1) :
    (bootStep mk apps entry).lookup n = apps.lookup n := by
  unfold bootStep onStartApp
  by_cases hs : (apps.lookup entry.1).isSome
  · simp [hs]
  · cases hmk : mk entry.1 entry.2 with
    | error e => simp [hs, hmk]
    | ok app => simp [hs, hmk, lookup_cons_ne entry.1 n app apps hn]

/-- The boot loop leaves names outside the processed runlist untouched. -/
theorem boot_foldl_lookup_not_mem (mk : String → String → Except NodeError App)
    (l : List (String × String)) (apps : AppMap) (n : String)
    (hn : ¬ n ∈ l.map Prod.fst) :
    (l.foldl (bootStep mk) apps).lookup n = apps.lookup n := by
  induction l generalizing apps with
  | nil => rfl
  | cons e rest ih =>
      rw [List.foldl_cons]
      have hne : n ≠ e.1 := by
        intro hk
        exact hn (by simp [hk])
      rw [ih (bootStep mk apps e) (fun hm => hn (by simp [hm]))]
      exact bootStep_lookup_ne mk apps e n hne

/-- Over a runlist with distinct names, an entry whose app constructs ends
up registered under that app, whatever the other entries do. -/
theorem boot_foldl_lookup_ok (mk : String → String → Except NodeError App)
    (l : List (String × String)) (apps : AppMap) (entry : String × String)
    (app : App) (hnd : (l.map Prod.fst).Nodup) (hmem : entry ∈ l)
    (hnone : apps.lookup entry.1 = none) (hmk : mk entry.1 entry.2 = .ok app) :
    (l.foldl (bootStep mk) apps).lookup entry.1 = some app := by
  induction l generalizing apps with
  | nil => cases hmem
  | cons e rest ih =>
      rw [List.foldl_cons]
      rw [List.map_cons, List.nodup_cons] at hnd
      rcases List.mem_cons.mp hmem with rfl | hm
      · have hstep : bootStep mk apps entry = (entry.1, app) :: apps := by
          unfold bootStep onStartApp
          simp [hnone, hmk]
        rw [hstep,
          boot_foldl_lookup_not_mem mk rest _ entry.1 hnd.1,
          lookup_cons_self]
      · have hne : entry.1 ≠ e.1 := by
          intro hk
          exact hnd.1
            (hk ▸ List.mem_map_of_mem Prod.fst hm)
        refine ih _ hnd.2 hm ?_
        rw [bootStep_lookup_ne mk apps e entry.1 hne]
        exact hnone

/-- Over a runlist with distinct names, an entry whose app construction
throws stays unregistered — the loop continues but never registers it. -/
theorem boot_foldl_lookup_error (mk : String → String → Except NodeError App)
    (l : List (String × String)) (apps : AppMap) (entry : String × String)
    (e₀ : NodeError) (hnd : (l.map Prod.fst).Nodup) (hmem : entry ∈ l)
    (hnone : apps.lookup entry.1 = none) (hmk : mk entry.1 entry.2 = .error e₀) :
    (l.foldl (bootStep mk) apps).lookup entry.1 = none := by
  induction l generalizing apps with
  | nil => cases hmem
  | cons e rest ih =>
      rw [List.foldl_cons]
      rw [List.map_cons, List.nodup_cons] at hnd
      rcases List.mem_cons.mp hmem with rfl | hm
      · have hstep : bootStep mk apps entry = apps := by
          unfold bootStep onStartApp
          simp [hnone, hmk]
        rw [hstep,
          boot_foldl_lookup_not_mem mk rest _ entry.1 hnd.1]
        exact hnone
      · have hne : entry.1 ≠ e.1 := by
          intro hk
          exact hnd.1
            (hk ▸ List.mem_map_of_mem Prod.fst hm)
        refine ih _ hnd.2 hm ?_
        rw [bootStep_lookup_ne mk apps e entry.1 hne]
        exact hnone

/-- Anything the boot loop registers comes from the runlist. -/
theorem boot_foldl_lookup_some_mem (mk : String → String → Except NodeError App)
    (l : List (String × String)) (apps : AppMap) (n : String)
    (h : ((l.foldl (bootStep mk) apps).lookup n).isSome) :
    (apps.lookup n).isSome ∨ n ∈ l.map Prod.fst := by
  induction l generalizing apps with
  | nil => exact Or.inl h
  | cons e rest ih =>
      rw [List.foldl_cons] at h
      rcases ih (bootStep mk apps e) h with hs | hmem
      · by_cases hne : n = e.1
        · exact Or.inr (by simp [hne])
        · rw [bootStep_lookup_ne mk apps e n hne] at hs
          exact Or.inl hs
      · exact Or.inr (by simp [hmem])

/-- C4: on node boot the runlist is read from `("runlists", id)` with `id`
taken from the arguments and defaulting to `"default"`; `start` is invoked
for every entry and a per-app failure is caught, so every entry whose app
constructs ends up registered (with exactly its app), every entry whose app
construction throws stays out, nothing outside the runlist is registered,
and a storage failure on the runlist read just leaves the node empty. -/
theorem node_boot_runlist (mk : String → String → Except NodeError App)
    (runlists : String → Option (List (String × String)))
    (args : Option String) (runlist : List (String × String))
    (hr : runlists (args.getD "default") = some runlist)
    (hnd : (runlist.map Prod.fst).Nodup) :
    (∀ entry app, entry ∈ runlist → mk entry.1 entry.2 = .ok app →
      (nodeBoot mk runlists args).lookup entry.1 = some app) ∧
    (∀ entry e, entry ∈ runlist → mk entry.1 entry.2 = .error e →
      (nodeBoot mk runlists args).lookup entry.1 = none) ∧
    (∀ n, ((nodeBoot mk runlists args).lookup n).isSome →
      n ∈ runlist.map Prod.fst) ∧
    (∀ runlists₂ : String → Option (List (String × String)),
      runlists₂ (args.getD "default") = none → nodeBoot mk runlists₂ args = []) ∧
    nodeBoot mk runlists none = nodeBoot mk runlists (some "default") := by
  have hb : nodeBoot mk runlists args = runlist.foldl (bootStep mk) [] := by
    unfold nodeBoot
    rw [hr]
    rfl
  refine ⟨?_, ?_, ?_, ?_, rfl⟩
  · intro entry app hmem hmk
    rw [hb]
    exact boot_foldl_lookup_ok mk runlist [] entry app hnd hmem rfl hmk
  · intro entry e hmem hmk
    rw [hb]
    exact boot_foldl_lookup_error mk runlist [] entry e hnd hmem rfl hmk
  · intro n hs
    rw [hb] at hs
    rcases boot_foldl_lookup_some_mem mk runlist [] n hs with h0 | h0
    · simp [List.lookup] at h0
    · exact h0
  · intro runlists₂ hnone
    unfold nodeBoot
    rw [hnone]
    rfl

/-- Witness for C4: a two-app runlist where the first app fails to
construct and the second succeeds. -/
theorem node_boot_runlist_witness :
    ((nodeBoot
        (fun n p => if n = "bad" then .error ⟨"nope"⟩ else .ok ⟨p⟩)
        (fun id => if id = "default" then some [("bad", "p1"), ("good", "p2")] else none)
        none).lookup "good" = some ⟨"p2"⟩) ∧
    ((nodeBoot
        (fun n p => if n = "bad" then .error ⟨"nope"⟩ else .ok ⟨p⟩)
        (fun id => if id = "default" then some [("bad", "p1"), ("good", "p2")] else none)
        none).lookup "bad" = none) := by
  have h := node_boot_runlist
    (fun n p => if n = "bad" then .error ⟨"nope"⟩ else .ok ⟨p⟩)
    (fun id => if id = "default" then some [("bad", "p1"), ("good", "p2")] else none)
    none [("bad", "p1"), ("good", "p2")] rfl (by decide)
  exact ⟨h.1 ("good", "p2") ⟨"p2"⟩ (by decide) rfl,
    h.2.1 ("bad", "p1") ⟨"nope"⟩ (by decide) rfl⟩

/-- Stopping an engine flips its own entry to stopped. -/
theorem lookup_stopEngine_self (m : EngineMap) (name : String) :
    (stopEngine m name).lookup name = (m.lookup name).map (fun _ => ⟨false⟩) := by
  induction m with
  | nil => rfl
  | cons p rest ih =>
      obtain ⟨a, b⟩ := p
      by_cases h : a = name
      · subst h
        simp only [stopEngine, List.map_cons, eq_self_iff_true, if_true]
        rw [lookup_cons_self, lookup_cons_self]
        rfl
      · simp only [stopEngine, List.map_cons, h, if_false]
        rw [lookup_cons_ne a name b _ (Ne.symm h),
          lookup_cons_ne a name b rest (Ne.symm h)]
        simpa [stopEngine] using ih

/-- Stopping an engine touches no other name. -/
theorem lookup_stopEngine_ne (m : EngineMap) (name n : String) (h : n ≠ name) :
    (stopEngine m name).lookup n = m.lookup n := by
  induction m with
  | nil => rfl
  | cons p rest ih =>
      obtain ⟨a, b⟩ := p
      by_cases ha : n = a
      · subst ha
        simp only [stopEngine, List.map_cons, h, if_false]
        rw [lookup_cons_self, lookup_cons_self]
      · by_cases hname : a = name
        · simp only [stopEngine, List.map_cons, hname, eq_self_iff_true, if_true]
          rw [lookup_cons_ne name n _ _ (hname ▸ ha),
            lookup_cons_ne name n b rest (hname ▸ ha)]
          simpa [stopEngine] using ih
        · simp only [stopEngine, List.map_cons, hname, if_false]
          rw [lookup_cons_ne a n b _ ha, lookup_cons_ne a n b rest ha]
          simpa [stopEngine] using ih

/-- A `recover` loop that has already failed stays failed. -/
theorem recover_foldl_error (ctorOk : String → Bool) (l : List String)
    (e : ConfigError) : l.foldl (recoverStep ctorOk) (.error e) = .error e := by
  induction l with
  | nil => rfl
  | cons a rest ih =>
      rw [List.foldl_cons]
      exact ih

/-- A successful `recover` step for one name leaves every other name's
registration unchanged. -/
theorem recoverStep_ok_lookup_ne (ctorOk : String → Bool) (m m' : EngineMap)
    (a n : String) (h : n ≠ a)
    (hstep : recoverStep ctorOk (.ok m) a = .ok m') :
    m'.lookup n = m.lookup n := by
  unfold recoverStep createEngine at hstep
  by_cases hs : (m.lookup a).isSome
  · simp only [hs, if_true] at hstep
    have hm : m' = stopEngine m a := ((Except.ok.injEq _ _).mp hstep).symm
    subst hm
    exact lookup_stopEngine_ne m a n h
  · simp only [hs, if_false, Bool.false_eq_true] at hstep
    cases hc : ctorOk a with
    | false =>
        rw [hc] at hstep
        simp at hstep
    | true =>
        rw [hc] at hstep
        simp only [if_true] at hstep
        have hm : m' = (a, ⟨true⟩) :: m := ((Except.ok.injEq _ _).mp hstep).symm
        subst hm
        exact lookup_cons_ne a n ⟨true⟩ m h

/-- The `recover` loop leaves names outside the processed difference list
untouched. -/
theorem recover_fold_lookup_not_mem (ctorOk : String → Bool) (l : List String)
    (m m₂ : EngineMap) (n : String) (hn : ¬ n ∈ l)
    (h : l.foldl (recoverStep ctorOk) (.ok m) = .ok m₂) :
    m₂.lookup n = m.lookup n := by
  induction l generalizing m with
  | nil =>
      have : m = m₂ := (Except.ok.injEq _ _).mp h
      rw [← this]
  | cons a rest ih =>
      rw [List.foldl_cons] at h
      cases hstep : recoverStep ctorOk (.ok m) a with
      | error e =>
          rw [hstep, recover_foldl_error] at h
          exact Except.noConfusion h
      | ok m' =>
          rw [hstep] at h
          have hne : n ≠ a := fun hk => hn (by simp [hk])
          rw [ih m' (fun hm => hn (List.mem_cons_of_mem a hm)) h]
          exact recoverStep_ok_lookup_ne ctorOk m m' a n hne hstep

/-- Processing a name in the difference list creates-and-starts it when it
was unregistered, and stops it when it was registered. -/
theorem recover_fold_process (ctorOk : String → Bool) (l : List String)
    (m m₂ : EngineMap) (name : String) (hnd : l.Nodup) (hmem : name ∈ l)
    (h : l.foldl (recoverStep ctorOk) (.ok m) = .ok m₂) :
    (m.lookup name = none → m₂.lookup name = some ⟨true⟩) ∧
    (∀ e, m.lookup name = some e → m₂.lookup name = some ⟨false⟩) := by
  induction l generalizing m with
  | nil => cases hmem
  | cons a rest ih =>
      rw [List.foldl_cons] at h
      rw [List.nodup_cons] at hnd
      rcases List.mem_cons.mp hmem with rfl | hm
      · constructor
        · intro hnone
          have hs : ¬ (m.lookup name).isSome := by simp [hnone]
          cases hc : ctorOk name with
          | false =>
              have hstep : recoverStep ctorOk (.ok m) name = .error
                  ⟨"the '" ++ name ++ "' app is not available"⟩ := by
                unfold recoverStep createEngine
                simp [hs, hc]
              rw [hstep, recover_foldl_error] at h
              exact Except.noConfusion h
          | true =>
              have hstep : recoverStep ctorOk (.ok m) name =
                  .ok ((name, ⟨true⟩) :: m) := by
                unfold recoverStep createEngine
                simp [hs, hc]
              rw [hstep] at h
              rw [recover_fold_lookup_not_mem ctorOk rest _ m₂ name hnd.1 h]
              exact lookup_cons_self name ⟨true⟩ m
        · intro e hsome
          have hstep : recoverStep ctorOk (.ok m) name =
              .ok (stopEngine m name) := by
            unfold recoverStep
            simp [hsome]
          rw [hstep] at h
          rw [recover_fold_lookup_not_mem ctorOk rest _ m₂ name hnd.1 h,
            lookup_stopEngine_self, hsome]
          rfl
      · have hne : name ≠ a := fun hk => hnd.1 (hk ▸ hm)
        cases hstep : recoverStep ctorOk (.ok m) a with
        | error e =>
            rw [hstep, recover_foldl_error] at h
            exact Except.noConfusion h
        | ok m' =>
            rw [hstep] at h
            have hpres := recoverStep_ok_lookup_ne ctorOk m m' a name hne hstep
            obtain ⟨ih1, ih2⟩ := ih m' hnd.2 hm h
            exact ⟨fun hnone => ih1 (hpres.trans hnone),
              fun e hsome => ih2 e (hpres.trans hsome)⟩

/-- Membership in the symmetric difference `recover` iterates over. -/
theorem mem_symmDiff_iff (avail : List String) (engines : EngineMap)
    (n : String) :
    n ∈ symmDiff avail engines ↔
      (n ∈ avail ∧ engines.lookup n = none) ∨
      ((engines.lookup n).isSome ∧ ¬ n ∈ avail) := by
  unfold symmDiff
  simp only [List.mem_append, List.mem_filter, List.mem_dedup,
    mem_keys_iff_lookup, Option.isNone_iff_eq_none, decide_eq_true_eq]

/-- The symmetric difference lists each name at most once. -/
theorem symmDiff_nodup (avail : List String) (engines : EngineMap) :
    (symmDiff avail engines).Nodup := by
  unfold symmDiff
  refine List.Nodup.append (List.Nodup.filter _ avail.nodup_dedup)
    (List.Nodup.filter _ (List.nodup_dedup _)) ?_
  intro a ha hb
  rw [List.mem_filter] at ha hb
  have h1 : engines.lookup a = none :=
    Option.isNone_iff_eq_none.mp (by simpa using ha.2)
  have h2 : (engines.lookup a).isSome :=
    (mem_keys_iff_lookup engines a).mp (List.mem_dedup.mp hb.1)
  rw [h1] at h2
  simp at h2

/-- C3: `recover` reconciles the registered engines with the storage app
list by symmetric difference — a name in storage with no registered engine
gets a fresh started engine, a registered name absent from storage has its
engine stopped (but stays registered), and a name in both (or in neither)
keeps its engine untouched. -/
theorem recover_reconciles (ctorOk : String → Bool) (storageApps : List String)
    (engines engines₂ : EngineMap)
    (h : recover ctorOk storageApps engines = .ok engines₂) :
    (∀ n, n ∈ storageApps → engines.lookup n = none →
      engines₂.lookup n = some ⟨true⟩) ∧
    (∀ n e, engines.lookup n = some e → ¬ n ∈ storageApps →
      engines₂.lookup n = some ⟨false⟩) ∧
    (∀ n e, engines.lookup n = some e → n ∈ storageApps →
      engines₂.lookup n = some e) ∧
    (∀ n, engines.lookup n = none → ¬ n ∈ storageApps →
      engines₂.lookup n = none) := by
  unfold recover at h
  refine ⟨?_, ?_, ?_, ?_⟩
  · intro n hav hnone
    have hmem : n ∈ symmDiff storageApps engines :=
      (mem_symmDiff_iff storageApps engines n).mpr (Or.inl ⟨hav, hnone⟩)
    exact (recover_fold_process ctorOk _ engines engines₂ n
      (symmDiff_nodup storageApps engines) hmem h).1 hnone
  · intro n e hsome hav
    have hmem : n ∈ symmDiff storageApps engines :=
      (mem_symmDiff_iff storageApps engines n).mpr
        (Or.inr ⟨by simp [hsome], hav⟩)
    exact (recover_fold_process ctorOk _ engines engines₂ n
      (symmDiff_nodup storageApps engines) hmem h).2 e hsome
  · intro n e hsome hav
    have hnmem : ¬ n ∈ symmDiff storageApps engines := by
      rw [mem_symmDiff_iff]
      rintro (⟨-, hn⟩ | ⟨-, hn⟩)
      · rw [hsome] at hn
        exact Option.noConfusion hn

      · exact hn hav
    rw [recover_fold_lookup_not_mem ctorOk _ engines engines₂ n hnmem h]
    exact hsome
  · intro n hnone hav
    have hnmem : ¬ n ∈ symmDiff storageApps engines := by
      rw [mem_symmDiff_iff]
      rintro (⟨hn, -⟩ | ⟨hn, -⟩)
      · exact hav hn
      · rw [hnone] at hn
        simp at hn
    rw [recover_fold_lookup_not_mem ctorOk _ engines engines₂ n hnmem h]
    exact hnone

/-- Witness for C3: storage lists `a` (new) and `b` (running); engine `c`
runs but is gone from storage; recovery starts `a`, keeps `b`, stops `c`. -/
theorem recover_reconciles_witness :
    ([("a", Engine.mk true), ("b", Engine.mk true),
        ("c", Engine.mk false)].lookup "a" = some ⟨true⟩) ∧
    ([("a", Engine.mk true), ("b", Engine.mk true),
        ("c", Engine.mk false)].lookup "c" = some ⟨false⟩) ∧
    ([("a", Engine.mk true), ("b", Engine.mk true),
        ("c", Engine.mk false)].lookup "b" = some ⟨true⟩) ∧
    ([("a", Engine.mk true), ("b", Engine.mk true),
        ("c", Engine.mk false)].lookup "d" = none) := by
  have h := recover_reconciles (fun _ => true) ["a", "b"]
    [("b", ⟨true⟩), ("c", ⟨true⟩)]
    [("a", ⟨true⟩), ("b", ⟨true⟩), ("c", ⟨false⟩)] (by rfl)
  exact ⟨h.1 "a" (by decide) rfl, h.2.1 "c" ⟨true⟩ rfl (by decide),
    h.2.2.1 "b" ⟨true⟩ rfl (by decide), h.2.2.2 "d" rfl (by decide)⟩

/-- A sealed upstream writes nothing, ever. -/
theorem sendAll_sealed (msgs : List (Frame × Bool)) :
    sendAll .sealed msgs = (.sealed, []) := by
  induction msgs with
  | nil => rfl
  | cons p rest ih =>
      obtain ⟨f, attached⟩ := p
      simp [sendAll, send, ih]

/-- A terminal frame seals the upstream before anything else is processed,
so the frames written after it are exactly none: in any decomposition of the
write log around a terminal frame, the tail is empty. -/
theorem sendAll_active_terminal_last (msgs : List (Frame × Bool))
    (g : Frame) (l₂ : List Frame) (hg : g.terminal = true) :
    ∀ l₁, (sendAll .active msgs).2 = l₁ ++ g :: l₂ → l₂ = [] := by
  induction msgs with
  | nil =>
      intro l₁ h
      simp [sendAll] at h
  | cons p rest ih =>
      obtain ⟨f, attached⟩ := p
      intro l₁ h
      by_cases hf : f.terminal = true
      · cases attached with
        | true =>
            have hw : (sendAll .active ((f, true) :: rest)).2 = [f] := by
              simp [sendAll, send, hf, sendAll_sealed]
            rw [hw] at h
            rcases l₁ with - | ⟨x, xs⟩
            · rw [List.nil_append] at h
              exact ((List.cons_eq_cons.mp h).2).symm
            · rw [List.cons_append] at h
              obtain ⟨-, h₂⟩ := List.cons_eq_cons.mp h
              exact absurd h₂.symm (by simp)
        | false =>
            have hw : (sendAll .active ((f, false) :: rest)).2 = [] := by
              simp [sendAll, send, hf, sendAll_sealed]
            rw [hw] at h
            exact absurd h.symm (by simp)
      · cases attached with
        | true =>
            have hw : (sendAll .active ((f, true) :: rest)).2 =
                f :: (sendAll .active rest).2 := by
              simp [sendAll, send, hf]
            rw [hw] at h
            rcases l₁ with - | ⟨x, xs⟩
            · rw [List.nil_append] at h
              obtain ⟨hfg, -⟩ := List.cons_eq_cons.mp h
              rw [← hfg] at hg
              exact absurd hg hf
            · rw [List.cons_append] at h
              obtain ⟨-, h₂⟩ := List.cons_eq_cons.mp h
              exact ih xs h₂
        | false =>
            have hw : (sendAll .active ((f, false) :: rest)).2 =
                (sendAll .active rest).2 := by
              simp [sendAll, send, hf]
            rw [hw] at h
            exact ih l₁ h

/-- The write log of an active upstream holds at most one terminal frame. -/
theorem sendAll_active_terminal_count (msgs : List (Frame × Bool)) :
    (sendAll .active msgs).2.countP (fun g => g.terminal) ≤ 1 := by
  induction msgs with
  | nil => simp [sendAll]
  | cons p rest ih =>
      obtain ⟨f, attached⟩ := p
      by_cases hf : f.terminal = true
      · cases attached with
        | true =>
            have hw : (sendAll .active ((f, true) :: rest)).2 = [f] := by
              simp [sendAll, send, hf, sendAll_sealed]
            rw [hw]
            simp [List.countP_cons, hf]
        | false =>
            have hw : (sendAll .active ((f, false) :: rest)).2 = [] := by
              simp [sendAll, send, hf, sendAll_sealed]
            rw [hw]
            simp
      · cases attached with
        | true =>
            have hw : (sendAll .active ((f, true) :: rest)).2 =
                f :: (sendAll .active rest).2 := by
              simp [sendAll, send, hf]
            rw [hw]
            simpa [List.countP_cons, hf] using ih
        | false =>
            have hw : (sendAll .active ((f, false) :: rest)).2 =
                (sendAll .active rest).2 := by
              simp [sendAll, send, hf]
            rw [hw]
            exact ih

/-- C10: sending an event whose transition type is `void` seals an active
upstream; a sealed upstream never writes again; hence over any sequence of
sends at most one terminal frame is written, and no frame follows it. -/
theorem upstream_seals_on_terminal (f : Frame) (attached : Bool)
    (msgs : List (Frame × Bool)) :
    (f.terminal = true → (send .active f attached).1 = .sealed) ∧
    (send .sealed f attached = (.sealed, none)) ∧
    ((sendAll .sealed msgs).2 = []) ∧
    ((sendAll .active msgs).2.countP (fun g => g.terminal) ≤ 1) ∧
    (∀ l₁ g l₂, (sendAll .active msgs).2 = l₁ ++ g :: l₂ →
      g.terminal = true → l₂ = []) := by
  refine ⟨?_, rfl, ?_, sendAll_active_terminal_count msgs, ?_⟩
  · intro hf
    simp [send, hf]
  · rw [sendAll_sealed]
  · intro l₁ g l₂ h hg
    exact sendAll_active_terminal_last msgs g l₂ hg l₁ h

/-- Witness for C10: a non-terminal chunk, then a terminal choke, then a
late chunk — only the first two frames reach the channel and the terminal
one is last. -/
theorem upstream_seals_on_terminal_witness :
    (send .active ⟨true, 7⟩ true).1 = .sealed ∧
    send .sealed ⟨false, 8⟩ true = (.sealed, none) ∧
    ((sendAll .active
      [(⟨false, 1⟩, true), (⟨true, 2⟩, true), (⟨false, 3⟩, true)]).2.countP
        (fun g => g.terminal) ≤ 1) ∧
    ([] : List Frame) = [] := by
  have h := upstream_seals_on_terminal ⟨true, 7⟩ true
    [(⟨false, 1⟩, true), (⟨true, 2⟩, true), (⟨false, 3⟩, true)]
  have h₂ := upstream_seals_on_terminal ⟨false, 8⟩ true []
  exact ⟨h.1 rfl, h₂.2.1, h.2.2.2.1,
    h.2.2.2.2 [⟨false, 1⟩] ⟨true, 2⟩ [] (by rfl) rfl⟩

end Cocaine
